import Mathlib

set_option linter.unusedSectionVars false

/-!
# Verification of the sigma-rs linear-relation Sigma-protocol library

Shallow embedding of the core of `sigma-rs`:
* `linear_relation/mod.rs` — scalar/group variables, linear combinations,
  the `GroupMap` assignment table, `LinearMap` evaluation (multi-scalar
  multiplication), `LinearRelation` and its statement label;
* `schnorr_protocol.rs` — the generalized Schnorr Sigma protocol
  (`prover_commit`, `prover_response`, `verifier`, the HVZK simulator and
  the wire-format (de)serializers);
* `fiat_shamir.rs` — the `NISigmaProtocol` Fiat–Shamir wrapper.

Rust semantics are modelled explicitly:
* A fallible computation returns `Res α`: `.ok` for `Ok`, `.err e` for
  `Err(e)`, and `.panic` for a Rust panic (out-of-bounds indexing,
  `unwrap()` on an `Err`, a failed `assert!`).
* Machine `usize → u32` casts keep their truncating semantics
  (`n % 2^32`).
* The RNG is modelled as a stream `Nat → S` of field elements; the code
  under test draws nonces by sampling this stream in order.

The group layer is an arbitrary additive commutative group `G` with a
commutative ring of scalars `S` acting on it, exactly the interface the
Rust code consumes from the `group` crate.

Modules of the repository that are not present under `src/` (the error
enum `errors.rs`, the codec `codec.rs`, the byte serialization helpers
`serialization.rs`, and the `SigmaProtocol`/`CompactProtocol` trait
defaults) are modelled from the specification; each such definition's doc
comment starts with `Modelled from the spec:`.
-/

namespace SigmaRs

/-- Modelled from the spec: `errors.rs` is absent from `src/`. §7 lists the
error kinds `InvalidInstanceWitnessPair`, `UnassignedGroupVar`,
`VerificationFailure` and `ProofSizeMismatch`. -/
inductive Error where
  | InvalidInstanceWitnessPair
  | UnassignedGroupVar (var : Nat)
  | VerificationFailure
  | ProofSizeMismatch
deriving DecidableEq, Repr

/-- Result of running a piece of Rust code: a value, an `Err`, or a panic. -/
inductive Res (α : Type) where
  | panic
  | err (e : Error)
  | ok (a : α)
deriving DecidableEq, Repr

/-- Sequencing of fallible Rust computations (the `?` operator); a panic or
an early `Err` return aborts the rest. -/
def Res.bind {α β : Type} : Res α → (α → Res β) → Res β
  | .panic, _ => .panic
  | .err e, _ => .err e
  | .ok a, f => f a

@[simp] theorem Res.bind_ok {α β : Type} (a : α) (f : α → Res β) :
    Res.bind (.ok a) f = f a := rfl

@[simp] theorem Res.bind_err {α β : Type} (e : Error) (f : α → Res β) :
    Res.bind (.err e) f = .err e := rfl

@[simp] theorem Res.bind_panic {α β : Type} (f : α → Res β) :
    Res.bind .panic f = .panic := rfl

/-- Rust slice indexing `xs[i]`: the value, or a panic when out of bounds. -/
def listIdx {α : Type} (xs : List α) (i : Nat) : Res α :=
  match xs[i]? with
  | some x => .ok x
  | none => .panic

/-- Rust `unwrap()` on a `Result`: a panic when the value is an `Err`. -/
def Res.unwrap {α : Type} : Res α → Res α
  | .panic => .panic
  | .err _ => .panic
  | .ok a => .ok a

/-- `collect::<Result<Vec<_>, _>>()` over a list: first failure wins. -/
def mapRes {α β : Type} (f : α → Res β) : List α → Res (List β)
  | [] => .ok []
  | x :: xs => (f x).bind fun y => (mapRes f xs).bind fun ys => .ok (y :: ys)

/-- `struct ScalarVar(usize)` from `linear_relation/mod.rs`. -/
structure ScalarVar where
  idx : Nat
deriving DecidableEq, Repr

/-- `struct GroupVar(usize)` from `linear_relation/mod.rs`. -/
structure GroupVar where
  idx : Nat
deriving DecidableEq, Repr

/-- `struct Term { scalar: ScalarVar, elem: GroupVar }`. -/
structure Term where
  scalar : ScalarVar
  elem : GroupVar
deriving DecidableEq, Repr

/-- `struct LinearCombination(Vec<Term>)`. -/
structure LinearCombination where
  terms : List Term
deriving DecidableEq, Repr

/-- `struct GroupMap<G>(Vec<Option<G>>)`: the partial assignment of group
variables to element values. -/
structure GroupMap (G : Type) where
  slots : List (Option G)

/-- `GroupMap::get`: `self.0[var.0].ok_or(Error::UnassignedGroupVar { var })`.
The Rust indexing `self.0[var.0]` panics when the index is beyond the
backing vector; an in-range `None` slot is reported as
`UnassignedGroupVar`. -/
def GroupMap.get {G : Type} (m : GroupMap G) (var : GroupVar) : Res G :=
  match m.slots[var.idx]? with
  | none => .panic
  | some none => .err (.UnassignedGroupVar var.idx)
  | some (some g) => .ok g

/-- Whether a variable has an assigned value (an in-range `Some` slot). -/
def GroupMap.hasVal {G : Type} (m : GroupMap G) (var : GroupVar) : Bool :=
  match m.slots[var.idx]? with
  | some (some _) => true
  | _ => false

/-- The value assigned to a variable, defaulting to the identity. -/
def GroupMap.valD {G : Type} [Zero G] (m : GroupMap G) (var : GroupVar) : G :=
  ((m.slots.getD var.idx none).getD 0)

/-- `struct LinearMap<G>` from `linear_relation/mod.rs`. -/
structure LinearMap (G : Type) where
  constraints : List LinearCombination
  group_elements : GroupMap G
  num_scalars : Nat
  num_elements : Nat

/-- `LinearMap::num_constraints`. -/
def LinearMap.num_constraints {G : Type} (lm : LinearMap G) : Nat :=
  lm.constraints.length

section Algebra

variable {G S : Type} [AddCommGroup G] [CommRing S] [Module S G]

/-- `msm_pr`: the accumulating multi-scalar multiplication loop
`acc += *p * s` over `scalars.iter().zip(bases.iter())`. -/
def msm_pr (scalars : List S) (bases : List G) : G :=
  (scalars.zip bases).foldl (fun acc sp => acc + sp.1 • sp.2) 0

/-- `LinearMap::evaluate`: for each constraint, collect the scalar
coefficients (`scalars[term.scalar.0]`, a panic when out of range), then
the element values (`group_elements.get`, `?`-propagated), and take their
MSM. -/
def LinearMap.evaluate (lm : LinearMap G) (scalars : List S) : Res (List G) :=
  mapRes (fun lc =>
    (mapRes (fun t => listIdx scalars t.scalar.idx) lc.terms).bind fun coefficients =>
    (mapRes (fun t => lm.group_elements.get t.elem) lc.terms).bind fun elements =>
    .ok (msm_pr coefficients elements)) lm.constraints

end Algebra

/-- `struct LinearRelation<G>` from `linear_relation/mod.rs`. -/
structure LinearRelation (G : Type) where
  linear_map : LinearMap G
  image : List GroupVar

/-- `LinearRelation::image()`: collect the values assigned to the image
variables (named `imageElems` here because `image` is the field name). -/
def LinearRelation.imageElems {G : Type} (r : LinearRelation G) : Res (List G) :=
  mapRes (fun v => r.linear_map.group_elements.get v) r.image

/-- Little-endian byte encoding of `(n as u32)`: the Rust cast truncates
the `usize` to 32 bits, and `to_le_bytes` emits four bytes. -/
def u32le (n : Nat) : List Nat :=
  [n % 2 ^ 32 % 256, n % 2 ^ 32 / 256 % 256,
   n % 2 ^ 32 / 256 ^ 2 % 256, n % 2 ^ 32 / 256 ^ 3 % 256]

/-- `LinearRelation::label`: `assert_eq!(ne, constraints.len())` (a panic on
mismatch), then `u32 Ne` followed by, for each constraint/image pair in
order, the output-variable index, the term count, and each term's scalar
and element indices, all as little-endian `u32`. -/
def LinearRelation.label {G : Type} (r : LinearRelation G) : Option (List Nat) :=
  if r.image.length = r.linear_map.constraints.length then
    some (u32le r.image.length ++
      (r.linear_map.constraints.zip r.image).flatMap (fun ci =>
        u32le ci.2.idx ++ u32le ci.1.terms.length ++
          ci.1.terms.flatMap (fun t => u32le t.scalar.idx ++ u32le t.elem.idx)))
  else
    none

/-- Modelled from the spec: `serialization.rs` and the group layer's
encodings are absent from `src/`. §4.5 and §6 require canonical
fixed-length byte encodings of elements and scalars, with decoding
accepting exactly that length, and §4.4 requires a deterministic
scalar-from-transcript squeeze (`verifier_challenge`). `squeeze` maps the
list of absorbed byte strings to the squeezed challenge scalar. -/
structure Ext (G S : Type) where
  elem_len : Nat
  enc_elem : G → List Nat
  dec_elem : List Nat → Option G
  scalar_len : Nat
  enc_scalar : S → List Nat
  dec_scalar : List Nat → Option S
  squeeze : List (List Nat) → S

/-- Well-formedness of the external encoding layer: encodings have the
declared fixed length and decoding inverts encoding. -/
structure ExtOK {G S : Type} (ext : Ext G S) : Prop where
  enc_elem_len : ∀ g, (ext.enc_elem g).length = ext.elem_len
  dec_enc_elem : ∀ g, ext.dec_elem (ext.enc_elem g) = some g
  enc_scalar_len : ∀ s, (ext.enc_scalar s).length = ext.scalar_len
  dec_enc_scalar : ∀ s, ext.dec_scalar (ext.enc_scalar s) = some s

/-- Modelled from the spec: `serialization.rs` is absent from `src/`.
§4.5: vectors are encoded as the concatenation of their elements'
encodings, with no length prefix. -/
def serialize_elements {G S : Type} (ext : Ext G S) (xs : List G) : List Nat :=
  xs.flatMap ext.enc_elem

/-- Modelled from the spec: scalar-vector serialization, §4.5. -/
def serialize_scalars {G S : Type} (ext : Ext G S) (xs : List S) : List Nat :=
  xs.flatMap ext.enc_scalar

/-- Decode `count` consecutive chunks of `size` bytes each. -/
def decodeChunks {α : Type} (dec : List Nat → Option α) (size : Nat) :
    Nat → List Nat → Option (List α)
  | 0, _ => some []
  | n + 1, data =>
    match dec (data.take size), decodeChunks dec size n (data.drop size) with
    | some x, some xs => some (x :: xs)
    | _, _ => none

/-- Modelled from the spec: `deserialize_elements` from the absent
`serialization.rs`. §4.5: decoding accepts exactly
`count · repr_len(G)` bytes and rejects any other length. -/
def deserialize_elements {G S : Type} (ext : Ext G S) (data : List Nat)
    (count : Nat) : Option (List G) :=
  if data.length = count * ext.elem_len then
    decodeChunks ext.dec_elem ext.elem_len count data
  else
    none

/-- Modelled from the spec: `deserialize_scalars` from the absent
`serialization.rs`. -/
def deserialize_scalars {G S : Type} (ext : Ext G S) (data : List Nat)
    (count : Nat) : Option (List S) :=
  if data.length = count * ext.scalar_len then
    decodeChunks ext.dec_scalar ext.scalar_len count data
  else
    none

/-- Modelled from the spec: `codec.rs` is absent from `src/`. §4.4: the
codec state records the initialization vector and every absorbed message;
squeezing is a deterministic function of that record. -/
structure ShakeCodec where
  absorbed : List (List Nat)
deriving DecidableEq, Repr

/-- Modelled from the spec: `Codec::new(iv)` absorbs the IV into a fresh
sponge. -/
def ShakeCodec.new (iv : List Nat) : ShakeCodec :=
  ⟨[iv]⟩

/-- Modelled from the spec: `Codec::prover_message` absorbs prover bytes. -/
def ShakeCodec.prover_message (c : ShakeCodec) (msg : List Nat) : ShakeCodec :=
  ⟨c.absorbed ++ [msg]⟩

/-- Modelled from the spec: `Codec::verifier_challenge` squeezes a scalar,
deterministically in the absorbed sequence. -/
def ShakeCodec.verifier_challenge {G S : Type} (ext : Ext G S)
    (c : ShakeCodec) : S :=
  ext.squeeze c.absorbed

/-- `struct SchnorrProof<G>(pub LinearRelation<G>)` from
`schnorr_protocol.rs`. -/
structure SchnorrProof (G : Type) where
  rel : LinearRelation G

/-- `SchnorrProof::witness_length`: `self.0.linear_map.num_scalars`. -/
def SchnorrProof.witness_length {G : Type} (p : SchnorrProof G) : Nat :=
  p.rel.linear_map.num_scalars

/-- `SchnorrProof::commitment_length`: `self.0.linear_map.num_constraints()`. -/
def SchnorrProof.commitment_length {G : Type} (p : SchnorrProof G) : Nat :=
  p.rel.linear_map.num_constraints

section Protocol

variable {G S : Type} [AddCommGroup G] [DecidableEq G] [CommRing S]
  [DecidableEq S] [Module S G]

/-- `SchnorrProof::prover_commit`: reject a wrong witness length; reject a
relation whose image is the all-identity vector; otherwise draw
`witness_length` fresh nonces from the RNG stream and commit to
`linear_map.evaluate(nonces)`. -/
def SchnorrProof.prover_commit (p : SchnorrProof G) (witness : List S)
    (rng : Nat → S) : Res (List G × (List S × List S)) :=
  if witness.length ≠ p.witness_length then .err .InvalidInstanceWitnessPair
  else
    (p.rel.imageElems).bind fun img =>
    if ∀ x ∈ img, x = 0 then .err .InvalidInstanceWitnessPair
    else
      let nonces := (List.range p.witness_length).map rng
      (p.rel.linear_map.evaluate nonces).bind fun commitment =>
      .ok (commitment, (nonces, witness))

/-- `SchnorrProof::prover_response`: `z[i] = r[i] + w[i] * c` after length
checks on the stored nonces and witness. -/
def SchnorrProof.prover_response (p : SchnorrProof G)
    (prover_state : List S × List S) (challenge : S) : Res (List S) :=
  let nonces := prover_state.1
  let witness := prover_state.2
  if nonces.length ≠ p.witness_length ∨ witness.length ≠ p.witness_length then
    .err .InvalidInstanceWitnessPair
  else
    .ok ((nonces.zip witness).map fun rw => rw.1 + rw.2 * challenge)

/-- The verifier's right-hand-side loop:
`for (i, g) in commitment.iter().enumerate()` pushes
`group_elements.get(image[i])? * challenge + g`; `image[i]` is Rust
indexing and panics when out of range. -/
def SchnorrProof.rhs_accum (p : SchnorrProof G) (challenge : S) :
    Nat → List G → Res (List G)
  | _, [] => .ok []
  | i, g :: rest =>
    (listIdx p.rel.image i).bind fun imageVar =>
    (p.rel.linear_map.group_elements.get imageVar).bind fun x =>
    (SchnorrProof.rhs_accum p challenge (i + 1) rest).bind fun tail =>
    .ok ((challenge • x + g) :: tail)

/-- `SchnorrProof::verifier`: length checks, `lhs = evaluate(response)`,
the RHS loop, and the final componentwise comparison. -/
def SchnorrProof.verifier (p : SchnorrProof G) (commitment : List G)
    (challenge : S) (response : List S) : Res Unit :=
  if commitment.length ≠ p.commitment_length ∨
      response.length ≠ p.witness_length then
    .err .InvalidInstanceWitnessPair
  else
    (p.rel.linear_map.evaluate response).bind fun lhs =>
    (p.rhs_accum challenge 0 commitment).bind fun rhs =>
    if lhs = rhs then .ok () else .err .VerificationFailure

/-- `SchnorrProof::simulate_commitment`: after a response length check,
`T[j] = evaluate(response)[j] - image[j] * challenge`. -/
def SchnorrProof.simulate_commitment (p : SchnorrProof G) (challenge : S)
    (response : List S) : Res (List G) :=
  if response.length ≠ p.witness_length then .err .InvalidInstanceWitnessPair
  else
    (p.rel.linear_map.evaluate response).bind fun response_image =>
    (p.rel.imageElems).bind fun image =>
    .ok ((response_image.zip image).map fun ri => ri.1 - challenge • ri.2)

/-- `SchnorrProof::serialize_commitment`: `serialize_elements(commitment)`. -/
def SchnorrProof.serialize_commitment (ext : Ext G S) (_p : SchnorrProof G)
    (commitment : List G) : List Nat :=
  serialize_elements ext commitment

/-- `SchnorrProof::deserialize_commitment`:
`deserialize_elements(data, commitment_length).ok_or(VerificationFailure)`. -/
def SchnorrProof.deserialize_commitment (ext : Ext G S) (p : SchnorrProof G)
    (data : List Nat) : Res (List G) :=
  match deserialize_elements ext data p.commitment_length with
  | some c => .ok c
  | none => .err .VerificationFailure

/-- `SchnorrProof::deserialize_response`:
`deserialize_scalars(data, witness_length).ok_or(VerificationFailure)`. -/
def SchnorrProof.deserialize_response (ext : Ext G S) (p : SchnorrProof G)
    (data : List Nat) : Res (List S) :=
  match deserialize_scalars ext data p.witness_length with
  | some s => .ok s
  | none => .err .VerificationFailure

/-- `SchnorrProof::deserialize_challenge`:
`deserialize_scalars(data, 1).ok_or(VerificationFailure)`, then the first
scalar (Rust indexing, a panic on an impossible empty result). -/
def SchnorrProof.deserialize_challenge (ext : Ext G S) (_p : SchnorrProof G)
    (data : List Nat) : Res S :=
  match deserialize_scalars ext data 1 with
  | some (s :: _) => .ok s
  | some [] => .panic
  | none => .err .VerificationFailure

/-- Modelled from the spec: the `SigmaProtocol` trait default
`serialize_batchable` is absent from `src/`. §4.2 batchable wire format:
`serialize_elements(T) ‖ serialize_scalars(z)`. -/
def SchnorrProof.serialize_batchable (ext : Ext G S) (_p : SchnorrProof G)
    (commitment : List G) (_challenge : S) (response : List S) : List Nat :=
  serialize_elements ext commitment ++ serialize_scalars ext response

/-- Modelled from the spec: the `SigmaProtocol` trait default
`deserialize_batchable` is absent from `src/`. It splits the proof at the
commitment byte length and feeds the halves to `deserialize_commitment`
and `deserialize_response`; §4.2 requires any other total length to be
rejected with `VerificationFailure`. -/
def SchnorrProof.deserialize_batchable (ext : Ext G S) (p : SchnorrProof G)
    (data : List Nat) : Res (List G × List S) :=
  (p.deserialize_commitment ext
      (data.take (p.commitment_length * ext.elem_len))).bind fun commitment =>
  (p.deserialize_response ext
      (data.drop (p.commitment_length * ext.elem_len))).bind fun response =>
  .ok (commitment, response)

/-- Modelled from the spec: the `CompactProtocol` trait default
`serialize_compact` is absent from `src/`. §4.2 compact wire format:
`serialize_scalar(c) ‖ serialize_scalars(z)`. -/
def SchnorrProof.serialize_compact (ext : Ext G S) (_p : SchnorrProof G)
    (_commitment : List G) (challenge : S) (response : List S) : List Nat :=
  ext.enc_scalar challenge ++ serialize_scalars ext response

/-- Modelled from the spec: the `CompactProtocol` trait default
`deserialize_compact` is absent from `src/`. It splits the proof at the
scalar byte length into the challenge and the response vector. -/
def SchnorrProof.deserialize_compact (ext : Ext G S) (p : SchnorrProof G)
    (data : List Nat) : Res (S × List S) :=
  (p.deserialize_challenge ext (data.take ext.scalar_len)).bind fun challenge =>
  (p.deserialize_response ext (data.drop ext.scalar_len)).bind fun response =>
  .ok (challenge, response)

/-- Modelled from the spec: `CompactProtocol::get_commitment` is absent
from `src/`. §4.2/§4.3: the commitment is recovered from `(c, z)` by the
simulator formula, i.e. `simulate_commitment`. -/
def SchnorrProof.get_commitment (p : SchnorrProof G) (challenge : S)
    (response : List S) : Res (List G) :=
  p.simulate_commitment challenge response

/-- `struct NISigmaProtocol` from `fiat_shamir.rs`, instantiated (as in the
library's own `ProofBuilder`) with `P = SchnorrProof`. -/
structure NISigmaProtocol (G S : Type) where
  hash_state : ShakeCodec
  sigmap : SchnorrProof G

/-- `NISigmaProtocol::new(iv, instance)`: `hash_state = C::new(iv)`; nothing
else is absorbed. -/
def NISigmaProtocol.new (iv : List Nat) (inst : SchnorrProof G) :
    NISigmaProtocol G S :=
  ⟨ShakeCodec.new iv, inst⟩

/-- `NISigmaProtocol::prove`: clone the template codec, commit, absorb the
concatenated commitment bytes, squeeze the challenge, respond, locally
verify, and return the transcript. The second component is the wrapper
after the call; the method body never assigns to `self.hash_state` or
`self.sigmap`. -/
def NISigmaProtocol.prove (ext : Ext G S) (n : NISigmaProtocol G S)
    (witness : List S) (rng : Nat → S) :
    Res (List G × S × List S) × NISigmaProtocol G S :=
  (((n.sigmap.prover_commit witness rng).bind fun cs =>
      let codec := n.hash_state
      let data := cs.1.flatMap (fun commit => ext.enc_elem commit)
      let challenge := (codec.prover_message data).verifier_challenge ext
      (n.sigmap.prover_response cs.2 challenge).bind fun response =>
      (n.sigmap.verifier cs.1 challenge response).bind fun _ =>
      .ok (cs.1, challenge, response)),
   n)

/-- `NISigmaProtocol::verify`: clone the template codec, absorb the
commitment bytes, squeeze the expected challenge, compare, and delegate to
`SchnorrProof::verifier`. -/
def NISigmaProtocol.verify (ext : Ext G S) (n : NISigmaProtocol G S)
    (commitment : List G) (challenge : S) (response : List S) :
    Res Unit × NISigmaProtocol G S :=
  ((let codec := n.hash_state
    let data := commitment.flatMap (fun commit => ext.enc_elem commit)
    let expected := (codec.prover_message data).verifier_challenge ext
    if challenge = expected then
      n.sigmap.verifier commitment challenge response
    else
      .err .VerificationFailure),
   n)

/-- `NISigmaProtocol::prove_batchable`: `prove`, then
`serialize_batchable(..).unwrap()` (serialization is infallible here). -/
def NISigmaProtocol.prove_batchable (ext : Ext G S) (n : NISigmaProtocol G S)
    (witness : List S) (rng : Nat → S) :
    Res (List Nat) × NISigmaProtocol G S :=
  (((n.prove ext witness rng).1.bind fun t =>
      .ok (n.sigmap.serialize_batchable ext t.1 t.2.1 t.2.2)),
   n)

/-- `NISigmaProtocol::verify_batchable`:
`self.sigmap.deserialize_batchable(proof).unwrap()` — an `Err` from
deserialization panics — then the recomputed challenge and the Sigma
verifier. -/
def NISigmaProtocol.verify_batchable (ext : Ext G S) (n : NISigmaProtocol G S)
    (proof : List Nat) : Res Unit × NISigmaProtocol G S :=
  (((n.sigmap.deserialize_batchable ext proof).unwrap.bind fun cr =>
      let codec := n.hash_state
      let data := cr.1.flatMap (fun commit => ext.enc_elem commit)
      let challenge := (codec.prover_message data).verifier_challenge ext
      n.sigmap.verifier cr.1 challenge cr.2),
   n)

/-- `NISigmaProtocol::prove_compact`: `prove`, then
`serialize_compact(..).unwrap()`. -/
def NISigmaProtocol.prove_compact (ext : Ext G S) (n : NISigmaProtocol G S)
    (witness : List S) (rng : Nat → S) :
    Res (List Nat) × NISigmaProtocol G S :=
  (((n.prove ext witness rng).1.bind fun t =>
      .ok (n.sigmap.serialize_compact ext t.1 t.2.1 t.2.2)),
   n)

/-- `NISigmaProtocol::verify_compact`:
`deserialize_compact(proof).unwrap()`, recover the commitment via
`get_commitment`, and delegate to `verify`. -/
def NISigmaProtocol.verify_compact (ext : Ext G S) (n : NISigmaProtocol G S)
    (proof : List Nat) : Res Unit × NISigmaProtocol G S :=
  (((n.sigmap.deserialize_compact ext proof).unwrap.bind fun cz =>
      (n.sigmap.get_commitment cz.1 cz.2).bind fun commitment =>
      (n.verify ext commitment cz.1 cz.2).1),
   n)

end Protocol

section Denotation

variable {G S : Type} [AddCommGroup G] [DecidableEq G] [CommRing S]
  [DecidableEq S] [Module S G]

/-- Mathematical value of one linear combination under a scalar vector. -/
def lcPure (m : GroupMap G) (xs : List S) (lc : LinearCombination) : G :=
  (lc.terms.map fun t => xs.getD t.scalar.idx 0 • m.valD t.elem).sum

/-- Mathematical value of `LinearMap::evaluate`. -/
def LinearMap.evalPure (lm : LinearMap G) (xs : List S) : List G :=
  lm.constraints.map (lcPure lm.group_elements xs)

/-- The assigned image values, as a total function. -/
def LinearRelation.imagePure (r : LinearRelation G) : List G :=
  r.image.map fun v => r.linear_map.group_elements.valD v

/-- Every term of every constraint references a scalar below `len` and an
assigned group variable: the conditions under which `evaluate` cannot
panic or fail. -/
def LinearMap.evalWF (lm : LinearMap G) (len : Nat) : Prop :=
  ∀ lc ∈ lm.constraints, ∀ t ∈ lc.terms,
    t.scalar.idx < len ∧ lm.group_elements.hasVal t.elem = true

/-- Every image variable has an assigned value. -/
def LinearRelation.imageWF (r : LinearRelation G) : Prop :=
  ∀ v ∈ r.image, r.linear_map.group_elements.hasVal v = true

instance (lm : LinearMap G) (len : Nat) : Decidable (lm.evalWF len) := by
  unfold LinearMap.evalWF; infer_instance

instance (r : LinearRelation G) : Decidable (r.imageWF) := by
  unfold LinearRelation.imageWF; infer_instance

theorem listIdx_ok {α : Type} (xs : List α) (i : Nat) (d : α)
    (h : i < xs.length) : listIdx xs i = .ok (xs.getD i d) := by
  unfold listIdx
  rw [List.getElem?_eq_getElem h, List.getD_eq_getElem?_getD,
    List.getElem?_eq_getElem h]
  rfl

theorem GroupMap.get_of_hasVal {m : GroupMap G} {v : GroupVar}
    (h : m.hasVal v = true) : m.get v = .ok (m.valD v) := by
  unfold GroupMap.hasVal at h
  unfold GroupMap.get GroupMap.valD
  rw [List.getD_eq_getElem?_getD]
  cases hv : m.slots[v.idx]? with
  | none => rw [hv] at h; exact absurd h (by simp)
  | some o =>
    cases o with
    | none => rw [hv] at h; exact absurd h (by simp)
    | some g => simp only [hv]; rfl

theorem mapRes_ok {α β : Type} {f : α → Res β} {g : α → β} :
    ∀ {l : List α}, (∀ x ∈ l, f x = .ok (g x)) → mapRes f l = .ok (l.map g)
  | [], _ => rfl
  | x :: xs, h => by
    unfold mapRes
    rw [h x (List.mem_cons_self x xs),
      mapRes_ok fun y hy => h y (List.mem_cons_of_mem x hy)]
    rfl

theorem foldl_add_smul (pairs : List (S × G)) (a : G) :
    pairs.foldl (fun acc sp => acc + sp.1 • sp.2) a =
      a + (pairs.map fun sp => sp.1 • sp.2).sum := by
  induction pairs generalizing a with
  | nil => simp
  | cons p ps ih => simp [ih, add_assoc]

theorem msm_pr_eq_sum (scalars : List S) (bases : List G) :
    msm_pr scalars bases = ((scalars.zip bases).map fun sp => sp.1 • sp.2).sum := by
  unfold msm_pr
  rw [foldl_add_smul, zero_add]

theorem msm_pr_map {α : Type} (l : List α) (f : α → S) (g : α → G) :
    msm_pr (l.map f) (l.map g) = (l.map fun t => f t • g t).sum := by
  rw [msm_pr_eq_sum, List.zip_map' f g l, List.map_map]
  rfl

theorem evaluate_eq_evalPure {lm : LinearMap G} {xs : List S}
    (h : lm.evalWF xs.length) : lm.evaluate xs = .ok (lm.evalPure xs) := by
  unfold LinearMap.evaluate LinearMap.evalPure
  refine mapRes_ok fun lc hlc => ?_
  rw [mapRes_ok (g := fun t => xs.getD t.scalar.idx 0)
      (fun t ht => listIdx_ok xs t.scalar.idx 0 (h lc hlc t ht).1),
    Res.bind_ok,
    mapRes_ok (g := fun t => lm.group_elements.valD t.elem)
      (fun t ht => GroupMap.get_of_hasVal (h lc hlc t ht).2),
    Res.bind_ok, msm_pr_map]
  rfl

theorem imageElems_eq_imagePure {r : LinearRelation G} (h : r.imageWF) :
    r.imageElems = .ok r.imagePure := by
  unfold LinearRelation.imageElems LinearRelation.imagePure
  exact mapRes_ok fun v hv => GroupMap.get_of_hasVal (h v hv)

/-- The RHS values the verifier compares against: `c • Xⱼ + Tⱼ`. -/
def rhsPure (r : LinearRelation G) (challenge : S) (commitment : List G) :
    List G :=
  (commitment.zip r.imagePure).map fun gx => challenge • gx.2 + gx.1

theorem rhs_accum_ok {p : SchnorrProof G} {c : S} (hI : p.rel.imageWF) :
    ∀ (T : List G) (i : Nat), i + T.length ≤ p.rel.image.length →
      p.rhs_accum c i T =
        .ok ((T.zip (p.rel.imagePure.drop i)).map fun gx => c • gx.2 + gx.1)
  | [], i, _ => by simp [SchnorrProof.rhs_accum]
  | g :: rest, i, h => by
    have hi : i < p.rel.image.length := by
      simp only [List.length_cons] at h; omega
    have hmem : p.rel.image[i] ∈ p.rel.image := List.getElem_mem hi
    have hdrop : p.rel.imagePure.drop i =
        p.rel.linear_map.group_elements.valD p.rel.image[i] ::
          p.rel.imagePure.drop (i + 1) := by
      unfold LinearRelation.imagePure
      rw [← List.map_drop, List.drop_eq_getElem_cons hi, List.map_cons,
        List.map_drop]
    have hrec := rhs_accum_ok (c := c) hI rest (i + 1) (by
      simp only [List.length_cons] at h; omega)
    unfold SchnorrProof.rhs_accum
    rw [listIdx_ok p.rel.image i ⟨0⟩ hi, Res.bind_ok,
      List.getD_eq_getElem p.rel.image ⟨0⟩ hi,
      GroupMap.get_of_hasVal (hI _ hmem), Res.bind_ok, hrec, Res.bind_ok,
      hdrop]
    rfl

theorem rhs_accum_unassigned {p : SchnorrProof G} {c : S}
    (hrange : ∀ v ∈ p.rel.image,
      v.idx < p.rel.linear_map.group_elements.slots.length) :
    ∀ (T : List G) (i : Nat), i + T.length ≤ p.rel.image.length →
      (∃ j < T.length,
        p.rel.linear_map.group_elements.hasVal
          (p.rel.image.getD (i + j) ⟨0⟩) = false) →
      ∃ k, p.rhs_accum c i T = .err (.UnassignedGroupVar k)
  | [], _, _, hex => absurd hex (by simp)
  | g :: rest, i, h, hex => by
    have hi : i < p.rel.image.length := by
      simp only [List.length_cons] at h; omega
    have hmem : p.rel.image[i] ∈ p.rel.image := List.getElem_mem hi
    unfold SchnorrProof.rhs_accum
    rw [listIdx_ok p.rel.image i ⟨0⟩ hi,
      List.getD_eq_getElem p.rel.image ⟨0⟩ hi, Res.bind_ok]
    cases hv : p.rel.linear_map.group_elements.hasVal p.rel.image[i] with
    | false =>
      refine ⟨p.rel.image[i].idx, ?_⟩
      have hslot : p.rel.linear_map.group_elements.slots[p.rel.image[i].idx]? =
          some none := by
        have hin := hrange _ hmem
        unfold GroupMap.hasVal at hv
        cases hs : p.rel.linear_map.group_elements.slots[p.rel.image[i].idx]? with
        | none =>
          exact absurd (List.getElem?_eq_getElem hin ▸ hs) (by simp)
        | some o =>
          cases o with
          | none => rfl
          | some g' => rw [hs] at hv; cases hv
      unfold GroupMap.get
      rw [hslot]
      rfl
    | true =>
      rw [GroupMap.get_of_hasVal hv, Res.bind_ok]
      obtain ⟨j, hj, hjv⟩ := hex
      have hj' : ∃ j' < rest.length,
          p.rel.linear_map.group_elements.hasVal
            (p.rel.image.getD ((i + 1) + j') ⟨0⟩) = false := by
        cases j with
        | zero =>
          rw [Nat.add_zero, List.getD_eq_getElem p.rel.image ⟨0⟩ hi, hv] at hjv
          cases hjv
        | succ j' =>
          refine ⟨j', by simpa using Nat.lt_of_succ_lt_succ (by simpa using hj), ?_⟩
          rw [show i + 1 + j' = i + (j' + 1) from by omega]
          exact hjv
      obtain ⟨k, hk⟩ := rhs_accum_unassigned hrange rest (i + 1)
        (by simp only [List.length_cons] at h; omega) hj'
      exact ⟨k, by rw [hk]; rfl⟩

theorem verifier_characterization {p : SchnorrProof G} {T : List G} {c : S}
    {z : List S} (hT : T.length = p.commitment_length)
    (hz : z.length = p.witness_length)
    (hWF : p.rel.linear_map.evalWF z.length)
    (hlen : p.rel.image.length = p.rel.linear_map.constraints.length)
    (hI : p.rel.imageWF) :
    p.verifier T c z =
      if p.rel.linear_map.evalPure z = rhsPure p.rel c T then .ok ()
      else .err .VerificationFailure := by
  unfold SchnorrProof.verifier
  rw [if_neg (by push_neg; exact ⟨hT, hz⟩), evaluate_eq_evalPure hWF,
    Res.bind_ok,
    rhs_accum_ok hI T 0 (by
      simp only [Nat.zero_add, hT, SchnorrProof.commitment_length,
        LinearMap.num_constraints, hlen, le_refl]),
    Res.bind_ok, List.drop_zero]
  rfl

theorem flatMap_length_eq {α : Type} {enc : α → List Nat} {size : Nat}
    (hlen : ∀ x, (enc x).length = size) :
    ∀ xs : List α, (xs.flatMap enc).length = xs.length * size
  | [] => by simp
  | x :: xs => by
    simp only [List.flatMap_cons, List.length_append, hlen x,
      flatMap_length_eq hlen xs, List.length_cons]
    ring

theorem decodeChunks_flatMap {α : Type} {dec : List Nat → Option α}
    {enc : α → List Nat} {size : Nat} (hlen : ∀ x, (enc x).length = size)
    (hdec : ∀ x, dec (enc x) = some x) :
    ∀ xs : List α, decodeChunks dec size xs.length (xs.flatMap enc) = some xs
  | [] => rfl
  | x :: xs => by
    have htake : ((x :: xs).flatMap enc).take size = enc x := by
      rw [List.flatMap_cons, ← hlen x, List.take_left]
    have hdrop : ((x :: xs).flatMap enc).drop size = xs.flatMap enc := by
      rw [List.flatMap_cons, ← hlen x, List.drop_left]
    simp only [List.length_cons, decodeChunks, htake, hdrop, hdec x,
      decodeChunks_flatMap hlen hdec xs]

theorem deserialize_elements_roundtrip {G S : Type} {ext : Ext G S}
    (hok : ExtOK ext) (xs : List G) :
    deserialize_elements ext (serialize_elements ext xs) xs.length = some xs := by
  unfold deserialize_elements serialize_elements
  rw [if_pos (flatMap_length_eq hok.enc_elem_len xs)]
  exact decodeChunks_flatMap hok.enc_elem_len hok.dec_enc_elem xs

theorem deserialize_scalars_roundtrip {G S : Type} {ext : Ext G S}
    (hok : ExtOK ext) (xs : List S) :
    deserialize_scalars ext (serialize_scalars ext xs) xs.length = some xs := by
  unfold deserialize_scalars serialize_scalars
  rw [if_pos (flatMap_length_eq hok.enc_scalar_len xs)]
  exact decodeChunks_flatMap hok.enc_scalar_len hok.dec_enc_scalar xs

section Roundtrip

variable {G S : Type} [AddCommGroup G] [DecidableEq G] [CommRing S]
  [DecidableEq S] [Module S G]

theorem deserialize_batchable_roundtrip {ext : Ext G S} (hok : ExtOK ext)
    {p : SchnorrProof G} {T : List G} {c : S} {z : List S}
    (hT : T.length = p.commitment_length)
    (hz : z.length = p.witness_length) :
    p.deserialize_batchable ext (p.serialize_batchable ext T c z) =
      .ok (T, z) := by
  unfold SchnorrProof.deserialize_batchable SchnorrProof.serialize_batchable
  have hTlen : (serialize_elements ext T).length =
      p.commitment_length * ext.elem_len := by
    unfold serialize_elements
    rw [flatMap_length_eq hok.enc_elem_len T, hT]
  have htake : (serialize_elements ext T ++ serialize_scalars ext z).take
      (p.commitment_length * ext.elem_len) = serialize_elements ext T := by
    rw [← hTlen, List.take_left]
  have hdrop : (serialize_elements ext T ++ serialize_scalars ext z).drop
      (p.commitment_length * ext.elem_len) = serialize_scalars ext z := by
    rw [← hTlen, List.drop_left]
  rw [htake, hdrop]
  unfold SchnorrProof.deserialize_commitment
  rw [← hT, deserialize_elements_roundtrip hok T]
  unfold SchnorrProof.deserialize_response
  rw [← hz, deserialize_scalars_roundtrip hok z]
  rfl

theorem deserialize_compact_roundtrip {ext : Ext G S} (hok : ExtOK ext)
    {p : SchnorrProof G} {c : S} {z : List S}
    (hz : z.length = p.witness_length) (T : List G) :
    p.deserialize_compact ext (p.serialize_compact ext T c z) = .ok (c, z) := by
  unfold SchnorrProof.deserialize_compact SchnorrProof.serialize_compact
  have hclen : (ext.enc_scalar c).length = ext.scalar_len := hok.enc_scalar_len c
  have htake : (ext.enc_scalar c ++ serialize_scalars ext z).take
      ext.scalar_len = ext.enc_scalar c := by
    rw [← hclen, List.take_left]
  have hdrop : (ext.enc_scalar c ++ serialize_scalars ext z).drop
      ext.scalar_len = serialize_scalars ext z := by
    rw [← hclen, List.drop_left]
  rw [htake, hdrop]
  unfold SchnorrProof.deserialize_challenge
  have hone : deserialize_scalars ext (ext.enc_scalar c) 1 = some [c] := by
    have := deserialize_scalars_roundtrip (S := S) hok [c]
    simpa [serialize_scalars] using this
  rw [hone]
  unfold SchnorrProof.deserialize_response
  rw [← hz, deserialize_scalars_roundtrip hok z]
  rfl

end Roundtrip

section Linearity

variable {G S : Type} [AddCommGroup G] [DecidableEq G] [CommRing S]
  [DecidableEq S] [Module S G]

/-- The honest response vector `z[i] = r[i] + w[i] * c`. -/
def respPure (nonces witness : List S) (c : S) : List S :=
  (nonces.zip witness).map fun rw => rw.1 + rw.2 * c

theorem respPure_getD {nonces witness : List S} {c : S} {i : Nat}
    (hlen : nonces.length = witness.length) (hi : i < nonces.length) :
    (respPure nonces witness c).getD i 0 =
      nonces.getD i 0 + witness.getD i 0 * c := by
  have hz : i < (nonces.zip witness).length := by
    rw [List.length_zip]; omega
  have hw : i < witness.length := by omega
  unfold respPure
  rw [List.getD_eq_getElem _ 0 (by simpa using hz), List.getElem_map,
    List.getElem_zip, List.getD_eq_getElem _ 0 hi,
    List.getD_eq_getElem _ 0 hw]

theorem lcPure_resp {m : GroupMap G} {nonces witness : List S} {c : S}
    {lc : LinearCombination} {n : Nat}
    (hterms : ∀ t ∈ lc.terms, t.scalar.idx < n)
    (hn : nonces.length = n) (hw : witness.length = n) :
    lcPure m (respPure nonces witness c) lc =
      lcPure m nonces lc + c • lcPure m witness lc := by
  unfold lcPure
  rw [List.smul_sum, List.map_map, ← List.sum_map_add]
  congr 1
  refine List.map_congr_left fun t ht => ?_
  have hidx : t.scalar.idx < nonces.length := by rw [hn]; exact hterms t ht
  rw [respPure_getD (by omega) hidx, add_smul, mul_comm, mul_smul]
  rfl

theorem lcList_resp {m : GroupMap G} {nonces witness : List S} {c : S}
    {n : Nat} (hn : nonces.length = n) (hw : witness.length = n) :
    ∀ cs : List LinearCombination,
      (∀ lc ∈ cs, ∀ t ∈ lc.terms, t.scalar.idx < n) →
      cs.map (lcPure m (respPure nonces witness c)) =
        List.zipWith (fun a b => a + c • b) (cs.map (lcPure m nonces))
          (cs.map (lcPure m witness))
  | [], _ => rfl
  | lc :: cs, h => by
    rw [List.map_cons, List.map_cons, List.map_cons, List.zipWith_cons_cons,
      lcPure_resp (fun t ht => h lc (List.mem_cons_self lc cs) t ht) hn hw,
      lcList_resp hn hw cs fun lc' hlc' t ht =>
        h lc' (List.mem_cons_of_mem lc hlc') t ht]

theorem evalPure_resp {lm : LinearMap G} {nonces witness : List S} {c : S}
    {n : Nat} (hWF : lm.evalWF n) (hn : nonces.length = n)
    (hw : witness.length = n) :
    lm.evalPure (respPure nonces witness c) =
      List.zipWith (fun a b => a + c • b) (lm.evalPure nonces)
        (lm.evalPure witness) :=
  lcList_resp hn hw lm.constraints fun lc hlc t ht => (hWF lc hlc t ht).1

theorem zipWith_smul_add_comm (c : S) :
    ∀ l₁ l₂ : List G,
      List.zipWith (fun a b => a + c • b) l₁ l₂ =
        List.zipWith (fun a b => c • b + a) l₁ l₂
  | [], _ => by simp
  | _ :: _, [] => by simp
  | a :: l₁, b :: l₂ => by
    rw [List.zipWith_cons_cons, List.zipWith_cons_cons, add_comm,
      zipWith_smul_add_comm c l₁ l₂]

theorem zip_sub_recover (c : S) :
    ∀ Tl Xl : List G, Tl.length = Xl.length →
      ((List.zipWith (fun a b => a + c • b) Tl Xl).zip Xl).map
          (fun ri => ri.1 - c • ri.2) = Tl
  | [], [], _ => rfl
  | [], _ :: _, h => by simp at h
  | _ :: _, [], h => by simp at h
  | a :: Tl, b :: Xl, h => by
    rw [List.zipWith_cons_cons, List.zip_cons_cons, List.map_cons,
      zip_sub_recover c Tl Xl (by simpa using h)]
    simp [add_sub_cancel_right]

theorem rhsPure_eq_zipWith {r : LinearRelation G} {c : S} {T : List G} :
    rhsPure r c T = List.zipWith (fun a b => a + c • b) T r.imagePure := by
  unfold rhsPure
  show (List.zipWith Prod.mk T r.imagePure).map _ = _
  rw [List.map_zipWith]
  exact zipWith_smul_add_comm c T r.imagePure |>.symm

/-- The honest verifier accepts: with a satisfying witness, commitment
`evaluate(nonces)` and response `z = r + w·c`, the componentwise check
`evaluate(z) = c·X + T` holds. -/
theorem honest_verifier_ok {p : SchnorrProof G} (nonces witness : List S)
    (c : S) (hlen : p.rel.image.length = p.rel.linear_map.constraints.length)
    (hWF : p.rel.linear_map.evalWF p.witness_length) (hI : p.rel.imageWF)
    (hn : nonces.length = p.witness_length)
    (hw : witness.length = p.witness_length)
    (hsat : p.rel.linear_map.evalPure witness = p.rel.imagePure) :
    p.verifier (p.rel.linear_map.evalPure nonces) c
      (respPure nonces witness c) = .ok () := by
  have hzlen : (respPure nonces witness c).length = p.witness_length := by
    unfold respPure
    rw [List.length_map, List.length_zip]
    omega
  have hT : (p.rel.linear_map.evalPure nonces).length = p.commitment_length := by
    unfold LinearMap.evalPure SchnorrProof.commitment_length
      LinearMap.num_constraints
    simp
  have hWFz : p.rel.linear_map.evalWF (respPure nonces witness c).length := by
    rw [hzlen]; exact hWF
  rw [verifier_characterization hT hzlen hWFz hlen hI, if_pos]
  rw [evalPure_resp (n := p.witness_length) hWF hn hw, hsat,
    rhsPure_eq_zipWith]

end Linearity

section Pipeline

variable {G S : Type} [AddCommGroup G] [DecidableEq G] [CommRing S]
  [DecidableEq S] [Module S G]

/-- The nonce vector the prover draws from the RNG stream. -/
def honestNonces (p : SchnorrProof G) (rng : Nat → S) : List S :=
  (List.range p.witness_length).map rng

/-- The commitment an honest prover produces. -/
def honestCommit (p : SchnorrProof G) (rng : Nat → S) : List G :=
  p.rel.linear_map.evalPure (honestNonces p rng)

/-- The Fiat–Shamir challenge an honest prover derives. -/
def honestChallenge (ext : Ext G S) (n : NISigmaProtocol G S)
    (rng : Nat → S) : S :=
  ((n.hash_state.prover_message
      (serialize_elements ext (honestCommit n.sigmap rng))).verifier_challenge
    ext)

/-- The response an honest prover produces. -/
def honestResp (ext : Ext G S) (n : NISigmaProtocol G S) (witness : List S)
    (rng : Nat → S) : List S :=
  respPure (honestNonces n.sigmap rng) witness (honestChallenge ext n rng)

theorem honestNonces_length (p : SchnorrProof G) (rng : Nat → S) :
    (honestNonces p rng).length = p.witness_length := by
  unfold honestNonces
  rw [List.length_map, List.length_range]

theorem honestCommit_length (p : SchnorrProof G) (rng : Nat → S) :
    (honestCommit p rng).length = p.commitment_length := by
  unfold honestCommit LinearMap.evalPure SchnorrProof.commitment_length
    LinearMap.num_constraints
  rw [List.length_map]

theorem honestResp_length (ext : Ext G S) (n : NISigmaProtocol G S)
    (witness : List S) (rng : Nat → S)
    (hw : witness.length = n.sigmap.witness_length) :
    (honestResp ext n witness rng).length = n.sigmap.witness_length := by
  unfold honestResp respPure
  rw [List.length_map, List.length_zip, honestNonces_length, hw]
  omega

theorem prover_commit_ok {p : SchnorrProof G} {witness : List S}
    {rng : Nat → S} (hw : witness.length = p.witness_length)
    (hI : p.rel.imageWF) (hWF : p.rel.linear_map.evalWF p.witness_length)
    (hnt : ¬ ∀ x ∈ p.rel.imagePure, x = 0) :
    p.prover_commit witness rng =
      .ok (honestCommit p rng, (honestNonces p rng, witness)) := by
  unfold SchnorrProof.prover_commit
  rw [if_neg (by simp [hw]), imageElems_eq_imagePure hI, Res.bind_ok,
    if_neg hnt]
  show (p.rel.linear_map.evaluate (honestNonces p rng)).bind _ = _
  rw [evaluate_eq_evalPure (by rw [honestNonces_length]; exact hWF),
    Res.bind_ok]
  rfl

theorem prove_ok {ext : Ext G S} {n : NISigmaProtocol G S} {witness : List S}
    {rng : Nat → S}
    (hlen : n.sigmap.rel.image.length =
      n.sigmap.rel.linear_map.constraints.length)
    (hWF : n.sigmap.rel.linear_map.evalWF n.sigmap.witness_length)
    (hI : n.sigmap.rel.imageWF)
    (hw : witness.length = n.sigmap.witness_length)
    (hsat : n.sigmap.rel.linear_map.evalPure witness =
      n.sigmap.rel.imagePure) (hnt : ¬ ∀ x ∈ n.sigmap.rel.imagePure, x = 0) :
    (n.prove ext witness rng).1 =
      .ok (honestCommit n.sigmap rng,
        (honestChallenge ext n rng, honestResp ext n witness rng)) := by
  unfold NISigmaProtocol.prove
  rw [prover_commit_ok hw hI hWF hnt, Res.bind_ok]
  show (n.sigmap.prover_response (honestNonces n.sigmap rng, witness)
      (honestChallenge ext n rng)).bind _ = _
  unfold SchnorrProof.prover_response
  rw [if_neg (by push_neg; exact ⟨honestNonces_length n.sigmap rng, hw⟩),
    Res.bind_ok]
  have hv := honest_verifier_ok (p := n.sigmap)
    (honestNonces n.sigmap rng) witness (honestChallenge ext n rng)
    hlen hWF hI (honestNonces_length n.sigmap rng) hw hsat
  show (n.sigmap.verifier
      (n.sigmap.rel.linear_map.evalPure (honestNonces n.sigmap rng))
      (honestChallenge ext n rng)
      (respPure (honestNonces n.sigmap rng) witness
        (honestChallenge ext n rng))).bind
      (fun _ => Res.ok (honestCommit n.sigmap rng,
        (honestChallenge ext n rng, honestResp ext n witness rng))) = _
  rw [hv, Res.bind_ok]

theorem Res.unwrap_ok {α : Type} (a : α) :
    Res.unwrap (.ok a) = (.ok a : Res α) := rfl

theorem verify_batchable_honest {ext : Ext G S} (hok : ExtOK ext)
    {n : NISigmaProtocol G S} {witness : List S} {rng : Nat → S}
    (hlen : n.sigmap.rel.image.length =
      n.sigmap.rel.linear_map.constraints.length)
    (hWF : n.sigmap.rel.linear_map.evalWF n.sigmap.witness_length)
    (hI : n.sigmap.rel.imageWF)
    (hw : witness.length = n.sigmap.witness_length)
    (hsat : n.sigmap.rel.linear_map.evalPure witness =
      n.sigmap.rel.imagePure) :
    (n.verify_batchable ext
      (n.sigmap.serialize_batchable ext (honestCommit n.sigmap rng)
        (honestChallenge ext n rng) (honestResp ext n witness rng))).1 =
      .ok () := by
  have hv := honest_verifier_ok (p := n.sigmap)
    (honestNonces n.sigmap rng) witness (honestChallenge ext n rng)
    hlen hWF hI (honestNonces_length n.sigmap rng) hw hsat
  show ((n.sigmap.deserialize_batchable ext _).unwrap.bind _) = _
  rw [deserialize_batchable_roundtrip hok (honestCommit_length n.sigmap rng)
    (honestResp_length ext n witness rng hw), Res.unwrap_ok, Res.bind_ok]
  exact hv

theorem verify_compact_honest {ext : Ext G S} (hok : ExtOK ext)
    {n : NISigmaProtocol G S} {witness : List S} {rng : Nat → S}
    (hlen : n.sigmap.rel.image.length =
      n.sigmap.rel.linear_map.constraints.length)
    (hWF : n.sigmap.rel.linear_map.evalWF n.sigmap.witness_length)
    (hI : n.sigmap.rel.imageWF)
    (hw : witness.length = n.sigmap.witness_length)
    (hsat : n.sigmap.rel.linear_map.evalPure witness =
      n.sigmap.rel.imagePure) :
    (n.verify_compact ext
      (n.sigmap.serialize_compact ext (honestCommit n.sigmap rng)
        (honestChallenge ext n rng) (honestResp ext n witness rng))).1 =
      .ok () := by
  have hv := honest_verifier_ok (p := n.sigmap)
    (honestNonces n.sigmap rng) witness (honestChallenge ext n rng)
    hlen hWF hI (honestNonces_length n.sigmap rng) hw hsat
  have hzlen : (honestResp ext n witness rng).length =
      n.sigmap.witness_length := honestResp_length ext n witness rng hw
  show ((n.sigmap.deserialize_compact ext _).unwrap.bind _) = _
  rw [deserialize_compact_roundtrip hok hzlen (honestCommit n.sigmap rng),
    Res.unwrap_ok, Res.bind_ok]
  have hrecover : n.sigmap.get_commitment (honestChallenge ext n rng)
      (honestResp ext n witness rng) = .ok (honestCommit n.sigmap rng) := by
    unfold SchnorrProof.get_commitment SchnorrProof.simulate_commitment
    rw [if_neg (by simp [hzlen]),
      evaluate_eq_evalPure (by rw [hzlen]; exact hWF), Res.bind_ok,
      imageElems_eq_imagePure hI, Res.bind_ok]
    have hresp : n.sigmap.rel.linear_map.evalPure (honestResp ext n witness rng) =
        List.zipWith (fun a b => a + honestChallenge ext n rng • b)
          (honestCommit n.sigmap rng) n.sigmap.rel.imagePure := by
      unfold honestResp honestCommit
      rw [evalPure_resp (n := n.sigmap.witness_length) hWF
        (honestNonces_length n.sigmap rng) hw, hsat]
    rw [hresp, zip_sub_recover (honestChallenge ext n rng)
      (honestCommit n.sigmap rng) n.sigmap.rel.imagePure (by
        rw [honestCommit_length]
        unfold LinearRelation.imagePure SchnorrProof.commitment_length
          LinearMap.num_constraints
        rw [List.length_map, hlen])]
  rw [hrecover, Res.bind_ok]
  show (let codec := n.hash_state
    let data := (honestCommit n.sigmap rng).flatMap
      (fun commit => ext.enc_elem commit)
    let expected := (codec.prover_message data).verifier_challenge ext
    if honestChallenge ext n rng = expected then
      n.sigmap.verifier (honestCommit n.sigmap rng)
        (honestChallenge ext n rng) (honestResp ext n witness rng)
    else .err .VerificationFailure) = .ok ()
  show (if honestChallenge ext n rng = honestChallenge ext n rng then
      n.sigmap.verifier (honestCommit n.sigmap rng)
        (honestChallenge ext n rng) (honestResp ext n witness rng)
    else .err .VerificationFailure) = .ok ()
  rw [if_pos rfl]
  exact hv

end Pipeline

section ListHelpers

variable {G S : Type} [AddCommGroup G] [DecidableEq G] [CommRing S]
  [DecidableEq S] [Module S G]

theorem list_eq_iff_getD {α : Type} {l₁ l₂ : List α} {m : Nat}
    (h₁ : l₁.length = m) (h₂ : l₂.length = m) (d : α) :
    l₁ = l₂ ↔ ∀ j < m, l₁.getD j d = l₂.getD j d := by
  constructor
  · intro h j _
    rw [h]
  · intro h
    refine List.ext_getElem (by omega) fun i hi₁ hi₂ => ?_
    have := h i (by omega)
    rwa [List.getD_eq_getElem l₁ d hi₁, List.getD_eq_getElem l₂ d hi₂] at this

theorem evalPure_length (lm : LinearMap G) (xs : List S) :
    (lm.evalPure xs).length = lm.constraints.length := by
  unfold LinearMap.evalPure
  rw [List.length_map]

theorem imagePure_length (r : LinearRelation G) :
    (r.imagePure (G := G)).length = r.image.length := by
  unfold LinearRelation.imagePure
  rw [List.length_map]

theorem rhsPure_getD {r : LinearRelation G} {c : S} {T : List G} {j : Nat}
    (hlen : T.length = r.image.length) (hj : j < T.length) :
    (rhsPure r c T).getD j 0 =
      c • r.imagePure.getD j 0 + T.getD j 0 := by
  have hx : j < (r.imagePure (G := G)).length := by
    rw [imagePure_length]; omega
  have hz : j < (T.zip (r.imagePure (G := G))).length := by
    rw [List.length_zip]; omega
  unfold rhsPure
  rw [List.getD_eq_getElem _ 0 (by simpa using hz), List.getElem_map,
    List.getElem_zip, List.getD_eq_getElem _ 0 hj,
    List.getD_eq_getElem _ 0 hx]

end ListHelpers

section Claims

variable {G S : Type} [AddCommGroup G] [DecidableEq G] [CommRing S]
  [DecidableEq S] [Module S G]

/-- C3: the Sigma-protocol verifier, given a commitment `T` of length `Ne`
and a response `z` of length `num_scalars` over a well-formed relation,
returns `Ok(())` iff for every equation `j`, `evaluate(z)[j] = c·Xⱼ + T[j]`;
it returns `InvalidInstanceWitnessPair` when `len(T) ≠ Ne` or
`len(z) ≠ num_scalars`, `UnassignedGroupVar` when an (in-range) image slot
is unassigned, and `VerificationFailure` when the componentwise equality
fails. -/
theorem verifier_spec (p : SchnorrProof G) (T : List G) (c : S) (z : List S) :
    (T.length ≠ p.commitment_length ∨ z.length ≠ p.witness_length →
      p.verifier T c z = .err .InvalidInstanceWitnessPair) ∧
    (T.length = p.commitment_length → z.length = p.witness_length →
      p.rel.linear_map.evalWF z.length →
      p.rel.image.length = p.rel.linear_map.constraints.length →
      p.rel.imageWF →
      ((p.verifier T c z = .ok ()) ↔
        ∀ j < p.commitment_length,
          (p.rel.linear_map.evalPure z).getD j 0 =
            c • p.rel.imagePure.getD j 0 + T.getD j 0) ∧
      ((p.verifier T c z = .err .VerificationFailure) ↔
        ¬ ∀ j < p.commitment_length,
          (p.rel.linear_map.evalPure z).getD j 0 =
            c • p.rel.imagePure.getD j 0 + T.getD j 0)) ∧
    (T.length = p.commitment_length → z.length = p.witness_length →
      p.rel.linear_map.evalWF z.length →
      p.rel.image.length = p.rel.linear_map.constraints.length →
      (∀ v ∈ p.rel.image,
        v.idx < p.rel.linear_map.group_elements.slots.length) →
      (∃ v ∈ p.rel.image,
        p.rel.linear_map.group_elements.hasVal v = false) →
      ∃ k, p.verifier T c z = .err (.UnassignedGroupVar k)) := by
  refine ⟨fun h => ?_, fun hT hz hWF hlen hI => ?_, fun hT hz hWF hlen hrange hex => ?_⟩
  · unfold SchnorrProof.verifier
    rw [if_pos h]
  · have hchar := verifier_characterization (c := c) hT hz hWF hlen hI
    have hNe : T.length = p.rel.linear_map.constraints.length := by
      rw [hT]; rfl
    have heq : (p.rel.linear_map.evalPure z = rhsPure p.rel c T) ↔
        ∀ j < p.commitment_length,
          (p.rel.linear_map.evalPure z).getD j 0 =
            c • p.rel.imagePure.getD j 0 + T.getD j 0 := by
      have hlhs : (p.rel.linear_map.evalPure z).length = p.commitment_length := by
        rw [evalPure_length]; exact hNe ▸ hT
      have hrhs : (rhsPure p.rel c T).length = p.commitment_length := by
        unfold rhsPure
        rw [List.length_map, List.length_zip, imagePure_length, hlen, ← hNe,
          min_self, hT]
      rw [list_eq_iff_getD hlhs hrhs 0]
      constructor
      · intro h j hj
        rw [h j hj, rhsPure_getD (by rw [hlen, ← hNe]) (by omega)]
      · intro h j hj
        rw [h j hj, rhsPure_getD (by rw [hlen, ← hNe]) (by omega)]
    constructor
    · rw [hchar]
      constructor
      · intro h
        by_contra hne
        rw [if_neg ((not_congr heq).mpr hne)] at h
        cases h
      · intro h
        rw [if_pos (heq.mpr h)]
    · rw [hchar]
      constructor
      · intro h hforall
        rw [if_pos (heq.mpr hforall)] at h
        cases h
      · intro h
        rw [if_neg ((not_congr heq).mpr h)]
  · unfold SchnorrProof.verifier
    rw [if_neg (by push_neg; exact ⟨hT, hz⟩), evaluate_eq_evalPure hWF,
      Res.bind_ok]
    obtain ⟨v, hv, hval⟩ := hex
    obtain ⟨i, hilen, hig⟩ := List.getElem_of_mem hv
    have hTlen : T.length = p.rel.image.length := by
      rw [hT, hlen]; rfl
    obtain ⟨k, hk⟩ := rhs_accum_unassigned (c := c) hrange T 0
      (by omega) ⟨i, by omega, by
        rw [Nat.zero_add, List.getD_eq_getElem p.rel.image ⟨0⟩ hilen, hig]
        exact hval⟩
    exact ⟨k, by rw [hk]; rfl⟩

/-- C4: `prover_commit` returns `Err(InvalidInstanceWitnessPair)` when the
witness length differs from `num_scalars` or the assigned image is the
all-identity vector; otherwise, with all referenced group variables
assigned, it returns `Ok` with commitment `linear_map.evaluate(nonces)`
for the freshly sampled nonce vector of length `num_scalars`. -/
theorem prover_commit_spec (p : SchnorrProof G) (witness : List S)
    (rng : Nat → S) :
    (witness.length ≠ p.witness_length →
      p.prover_commit witness rng = .err .InvalidInstanceWitnessPair) ∧
    (witness.length = p.witness_length → p.rel.imageWF →
      (∀ x ∈ p.rel.imagePure, x = 0) →
      p.prover_commit witness rng = .err .InvalidInstanceWitnessPair) ∧
    (witness.length = p.witness_length → p.rel.imageWF →
      p.rel.linear_map.evalWF p.witness_length →
      (¬ ∀ x ∈ p.rel.imagePure, x = 0) →
      p.prover_commit witness rng =
        .ok (p.rel.linear_map.evalPure (honestNonces p rng),
          (honestNonces p rng, witness)) ∧
      (honestNonces p rng).length = p.witness_length) := by
  refine ⟨fun h => ?_, fun hw hI hz => ?_, fun hw hI hWF hnt => ?_⟩
  · unfold SchnorrProof.prover_commit
    rw [if_pos h]
  · unfold SchnorrProof.prover_commit
    rw [if_neg (by simp [hw]), imageElems_eq_imagePure hI, Res.bind_ok,
      if_pos hz]
  · exact ⟨prover_commit_ok hw hI hWF hnt, honestNonces_length p rng⟩

/-- C10: over a `LinearRelation` with no constraints and an empty image,
`prover_commit` refuses every witness of length `num_scalars` with
`InvalidInstanceWitnessPair`, because the all-identity check is vacuously
true on the empty image. -/
theorem empty_relation_refusal (m : GroupMap G) (ns ne : Nat)
    (witness : List S) (rng : Nat → S) (hw : witness.length = ns) :
    (SchnorrProof.mk ⟨⟨[], m, ns, ne⟩, []⟩).prover_commit witness rng =
      .err .InvalidInstanceWitnessPair := by
  unfold SchnorrProof.prover_commit
  rw [if_neg (by simpa [SchnorrProof.witness_length] using hw)]
  show (Res.ok []).bind _ = _
  rw [Res.bind_ok, if_pos (by simp)]

/-- C2: completeness — for a well-formed relation with assigned,
not-all-identity image and a satisfying witness of length `num_scalars`,
`prove_batchable` returns `Ok(bytes)` and `verify_batchable(bytes)` on the
same wrapper returns `Ok(())`; same for `prove_compact`/`verify_compact`,
for every RNG stream. -/
theorem completeness_batchable_compact (ext : Ext G S) (hok : ExtOK ext)
    (n : NISigmaProtocol G S)
    (hlen : n.sigmap.rel.image.length =
      n.sigmap.rel.linear_map.constraints.length)
    (hWF : n.sigmap.rel.linear_map.evalWF n.sigmap.witness_length)
    (hI : n.sigmap.rel.imageWF) (witness : List S)
    (hw : witness.length = n.sigmap.witness_length)
    (hsat : n.sigmap.rel.linear_map.evalPure witness =
      n.sigmap.rel.imagePure)
    (hnt : ¬ ∀ x ∈ n.sigmap.rel.imagePure, x = 0) (rng : Nat → S) :
    ∃ bytesB bytesC,
      (n.prove_batchable ext witness rng).1 = .ok bytesB ∧
      (n.verify_batchable ext bytesB).1 = .ok () ∧
      (n.prove_compact ext witness rng).1 = .ok bytesC ∧
      (n.verify_compact ext bytesC).1 = .ok () := by
  refine ⟨n.sigmap.serialize_batchable ext (honestCommit n.sigmap rng)
      (honestChallenge ext n rng) (honestResp ext n witness rng),
    n.sigmap.serialize_compact ext (honestCommit n.sigmap rng)
      (honestChallenge ext n rng) (honestResp ext n witness rng),
    ?_, ?_, ?_, ?_⟩
  · show ((n.prove ext witness rng).1.bind _) = _
    rw [prove_ok hlen hWF hI hw hsat hnt, Res.bind_ok]
  · exact verify_batchable_honest hok hlen hWF hI hw hsat
  · show ((n.prove ext witness rng).1.bind _) = _
    rw [prove_ok hlen hWF hI hw hsat hnt, Res.bind_ok]
  · exact verify_compact_honest hok hlen hWF hI hw hsat

theorem flatMap_map_fn {α β γ : Type} (g : α → β) (f : β → List γ) :
    ∀ l : List α, (l.map g).flatMap f = l.flatMap fun x => f (g x)
  | [] => rfl
  | x :: xs => by
    rw [List.map_cons, List.flatMap_cons, List.flatMap_cons,
      flatMap_map_fn g f xs]

theorem zip_flatMap_eq_range {α β γ : Type} (f : α × β → List γ) (d₁ : α)
    (d₂ : β) :
    ∀ (l₁ : List α) (l₂ : List β), l₁.length = l₂.length →
      (l₁.zip l₂).flatMap f =
        (List.range l₁.length).flatMap fun j => f (l₁.getD j d₁, l₂.getD j d₂)
  | [], [], _ => rfl
  | [], _ :: _, h => by simp at h
  | _ :: _, [], h => by simp at h
  | a :: l₁, b :: l₂, h => by
    rw [List.zip_cons_cons, List.flatMap_cons, List.length_cons,
      List.range_succ_eq_map, List.flatMap_cons, flatMap_map_fn]
    simp only [List.getD_cons_zero, List.getD_cons_succ]
    rw [zip_flatMap_eq_range f d₁ d₂ l₁ l₂ (by simpa using h)]

/-- The exact byte layout stated by the specification (§4.1) for the
statement label, written from the claim's words rather than from the
source: `u32 Ne` little-endian, then for each equation index `j` in order
`u32 image[j].index`, the `u32` term count, and for each term in order
`u32 scalar_index` followed by `u32 elem_index`. -/
def labelSpec {G : Type} (r : LinearRelation G) : List Nat :=
  u32le r.linear_map.constraints.length ++
    (List.range r.linear_map.constraints.length).flatMap fun j =>
      u32le (r.image.getD j ⟨0⟩).idx ++
        u32le (r.linear_map.constraints.getD j ⟨[]⟩).terms.length ++
        (r.linear_map.constraints.getD j ⟨[]⟩).terms.flatMap
          (fun t => u32le t.scalar.idx ++ u32le t.elem.idx)

/-- C6: for every `LinearRelation` with `len(image) = len(constraints)`,
`label()` returns exactly the specification's byte layout, and the output
depends only on the shape of the relation, never on the assigned element
values. -/
theorem label_bytes_spec (r : LinearRelation G)
    (h : r.image.length = r.linear_map.constraints.length) :
    r.label = some (labelSpec r) ∧
    ∀ m : GroupMap G,
      (LinearRelation.mk
        ⟨r.linear_map.constraints, m, r.linear_map.num_scalars,
          r.linear_map.num_elements⟩ r.image).label = r.label := by
  constructor
  · unfold LinearRelation.label labelSpec
    rw [if_pos h,
      zip_flatMap_eq_range _ ⟨[]⟩ ⟨0⟩ r.linear_map.constraints r.image h.symm,
      h]
  · intro m
    rfl

/-- C7: `simulate_commitment(c, z)` returns `Err(InvalidInstanceWitnessPair)`
when `len(z) ≠ num_scalars`, and otherwise returns the vector with
`T[j] = evaluate(z)[j] − c·Xⱼ`; `verify_compact` recovers the commitment
from `(c, z)` by exactly `get_commitment = simulate_commitment` before
checking the challenge. -/
theorem simulate_commitment_spec (p : SchnorrProof G) (c : S) (z : List S)
    (ext : Ext G S) :
    (z.length ≠ p.witness_length →
      p.simulate_commitment c z = .err .InvalidInstanceWitnessPair) ∧
    (z.length = p.witness_length → p.rel.linear_map.evalWF z.length →
      p.rel.imageWF →
      p.rel.image.length = p.rel.linear_map.constraints.length →
      p.simulate_commitment c z =
        .ok (((p.rel.linear_map.evalPure z).zip p.rel.imagePure).map
          fun ri => ri.1 - c • ri.2) ∧
      ∀ j < p.commitment_length,
        ((((p.rel.linear_map.evalPure z).zip p.rel.imagePure).map
          fun ri => ri.1 - c • ri.2).getD j 0) =
          (p.rel.linear_map.evalPure z).getD j 0 -
            c • p.rel.imagePure.getD j 0) ∧
    (ExtOK ext → z.length = p.witness_length →
      ∀ n : NISigmaProtocol G S, n.sigmap = p →
        ∀ T₀ : List G,
          (n.verify_compact ext (p.serialize_compact ext T₀ c z)).1 =
            (p.get_commitment c z).bind fun commitment =>
              (n.verify ext commitment c z).1) := by
  refine ⟨fun h => ?_, fun hz hWF hI hlen => ⟨?_, fun j hj => ?_⟩,
    fun hok hz n hn T₀ => ?_⟩
  · unfold SchnorrProof.simulate_commitment
    rw [if_pos h]
  · unfold SchnorrProof.simulate_commitment
    rw [if_neg (by simp [hz]), evaluate_eq_evalPure hWF, Res.bind_ok,
      imageElems_eq_imagePure hI, Res.bind_ok]
  · have hjE : j < (p.rel.linear_map.evalPure z).length := by
      rw [evalPure_length]
      exact hj
    have hjI : j < (p.rel.imagePure (G := G)).length := by
      rw [imagePure_length, hlen]
      exact hj
    have hjZ : j < ((p.rel.linear_map.evalPure z).zip
        (p.rel.imagePure (G := G))).length := by
      rw [List.length_zip]
      omega
    rw [List.getD_eq_getElem _ 0 (by simpa using hjZ), List.getElem_map,
      List.getElem_zip, List.getD_eq_getElem _ 0 hjE,
      List.getD_eq_getElem _ 0 hjI]
  · show ((n.sigmap.deserialize_compact ext _).unwrap.bind _) = _
    rw [hn, deserialize_compact_roundtrip hok (by rw [hz]) T₀,
      Res.unwrap_ok, Res.bind_ok]

/-- C9: the Fiat–Shamir wrapper is stateless across calls — after each of
`prove`, `verify`, `prove_batchable`, `verify_batchable`, `prove_compact`
and `verify_compact`, the wrapper (both its `hash_state` and its `sigmap`
field) is unchanged from its pre-call value; the working codec is a local
copy. -/
theorem wrapper_stateless (ext : Ext G S) (n : NISigmaProtocol G S)
    (witness : List S) (rng : Nat → S) (T : List G) (c : S) (z : List S)
    (proof : List Nat) :
    (n.prove ext witness rng).2 = n ∧
    (n.verify ext T c z).2 = n ∧
    (n.prove_batchable ext witness rng).2 = n ∧
    (n.verify_batchable ext proof).2 = n ∧
    (n.prove_compact ext witness rng).2 = n ∧
    (n.verify_compact ext proof).2 = n ∧
    (n.prove ext witness rng).2.hash_state = n.hash_state ∧
    (n.verify_batchable ext proof).2.sigmap = n.sigmap :=
  ⟨rfl, rfl, rfl, rfl, rfl, rfl, rfl, rfl⟩

end Claims

section Concrete

/-- A concrete external layer over `ZMod 5`: one-byte canonical encodings
(the value of the residue) and a squeeze that sums the absorbed bytes into
the scalar field. -/
def extZ : Ext (ZMod 5) (ZMod 5) where
  elem_len := 1
  enc_elem := fun g => [g.val]
  dec_elem := fun b =>
    match b with
    | [n] => if n < 5 then some (n : ZMod 5) else none
    | _ => none
  scalar_len := 1
  enc_scalar := fun s => [s.val]
  dec_scalar := fun b =>
    match b with
    | [n] => if n < 5 then some (n : ZMod 5) else none
    | _ => none
  squeeze := fun chunks => ((chunks.map List.sum).sum : Nat)

/-- A concrete RNG stream over `ZMod 5`. -/
def rngZ : Nat → ZMod 5 := fun i => (i : ZMod 5) + 4

/-- Discrete-log relation `X = x·G` over `ZMod 5` with `G = 1`, `X = 2`. -/
def rDlog : LinearRelation (ZMod 5) :=
  ⟨⟨[⟨[⟨⟨0⟩, ⟨0⟩⟩]⟩], ⟨[some 1, some 2]⟩, 1, 2⟩, [⟨1⟩]⟩

/-- Pedersen-style relation `C = x·G + r·H` over `ZMod 5`: a different
shape, hence a different statement label. -/
def rPed : LinearRelation (ZMod 5) :=
  ⟨⟨[⟨[⟨⟨0⟩, ⟨0⟩⟩, ⟨⟨1⟩, ⟨2⟩⟩]⟩], ⟨[some 1, some 3, some 2]⟩, 2, 3⟩, [⟨1⟩]⟩

/-- The discrete-log relation with its image variable left unassigned
(slot present but `None`). -/
def rUn : LinearRelation (ZMod 5) :=
  ⟨⟨[⟨[⟨⟨0⟩, ⟨0⟩⟩]⟩], ⟨[some 1, none]⟩, 1, 2⟩, [⟨1⟩]⟩

/-- A relation whose assigned image is the all-identity vector. -/
def rTriv : LinearRelation (ZMod 5) :=
  ⟨⟨[⟨[⟨⟨0⟩, ⟨0⟩⟩]⟩], ⟨[some 1, some 0]⟩, 1, 2⟩, [⟨1⟩]⟩

/-- C1 (code evaluation at the failing input): `new(iv, S)` stores only
`C::new(iv)` — it absorbs neither `S.protocol_identifier()` nor
`S.instance_label()` — so two relations with different labels under the
same IV share the template codec state, and identical commitment bytes
yield identical challenges. -/
theorem new_ignores_instance_label :
    rDlog.label ≠ rPed.label ∧
    (NISigmaProtocol.new (S := ZMod 5) [9, 9] ⟨rDlog⟩).hash_state =
      (NISigmaProtocol.new (S := ZMod 5) [9, 9] ⟨rPed⟩).hash_state ∧
    ∀ data : List Nat,
      ((NISigmaProtocol.new (S := ZMod 5) [9, 9]
          ⟨rDlog⟩).hash_state.prover_message data).verifier_challenge extZ =
        ((NISigmaProtocol.new (S := ZMod 5) [9, 9]
          ⟨rPed⟩).hash_state.prover_message data).verifier_challenge extZ :=
  ⟨by decide, rfl, fun _ => rfl⟩

/-- C5 (code evaluation at the failing input): on a proof whose length
differs from `Ne·repr_len(G) + num_scalars·repr_len(Scalar)`,
`deserialize_batchable` reports `Err(VerificationFailure)`, but
`verify_batchable` calls `.unwrap()` on that `Err` and panics instead of
returning the error. -/
theorem verify_batchable_panics_on_bad_length :
    (SchnorrProof.mk rDlog).deserialize_batchable extZ [] =
      .err .VerificationFailure ∧
    ((NISigmaProtocol.new (S := ZMod 5) [9, 9] ⟨rDlog⟩).verify_batchable
      extZ []).1 = .panic := by
  exact ⟨by decide, by decide⟩

/-- C8 (counterexample): reading `GroupVar 0` from an empty `GroupMap` —
a variable never touched by any assignment — panics (Rust vector indexing
out of bounds) instead of returning `Err(UnassignedGroupVar)`. -/
theorem get_out_of_range_panics :
    (GroupMap.mk ([] : List (Option (ZMod 5)))).get ⟨0⟩ = .panic ∧
    (GroupMap.mk ([] : List (Option (ZMod 5)))).get ⟨0⟩ ≠
      .err (.UnassignedGroupVar 0) :=
  ⟨rfl, by decide⟩

/-- C8 (amended): reading an unassigned `GroupVar` whose index lies within
the `GroupMap`'s backing vector returns `Err(UnassignedGroupVar)`; an
index beyond the backing vector panics rather than returning an error. -/
theorem get_unassigned_spec {G : Type} (m : GroupMap G) (v : GroupVar) :
    (v.idx < m.slots.length → m.slots.getD v.idx none = none →
      m.get v = .err (.UnassignedGroupVar v.idx)) ∧
    (m.slots.length ≤ v.idx → m.get v = .panic) := by
  constructor
  · intro h1 h2
    unfold GroupMap.get
    rw [List.getD_eq_getElem _ none h1] at h2
    rw [List.getElem?_eq_getElem h1, h2]
  · intro h
    unfold GroupMap.get
    rw [List.getElem?_eq_none h]

theorem get_unassigned_spec_witness :
    (GroupMap.mk ([none] : List (Option (ZMod 5)))).get ⟨0⟩ =
      .err (.UnassignedGroupVar 0) ∧
    (GroupMap.mk ([some 1] : List (Option (ZMod 5)))).get ⟨1⟩ = .panic :=
  ⟨(get_unassigned_spec ⟨[none]⟩ ⟨0⟩).1 (by decide) (by decide),
   (get_unassigned_spec ⟨[some 1]⟩ ⟨1⟩).2 (by decide)⟩

theorem completeness_batchable_compact_witness :
    ∃ bytesB bytesC,
      ((NISigmaProtocol.new (S := ZMod 5) [9, 9]
        ⟨rDlog⟩).prove_batchable extZ [2] rngZ).1 = .ok bytesB ∧
      ((NISigmaProtocol.new (S := ZMod 5) [9, 9]
        ⟨rDlog⟩).verify_batchable extZ bytesB).1 = .ok () ∧
      ((NISigmaProtocol.new (S := ZMod 5) [9, 9]
        ⟨rDlog⟩).prove_compact extZ [2] rngZ).1 = .ok bytesC ∧
      ((NISigmaProtocol.new (S := ZMod 5) [9, 9]
        ⟨rDlog⟩).verify_compact extZ bytesC).1 = .ok () :=
  completeness_batchable_compact extZ
    ⟨by decide, by decide, by decide, by decide⟩
    (NISigmaProtocol.new [9, 9] ⟨rDlog⟩) (by decide) (by decide) (by decide)
    [2] (by decide) (by decide) (by decide) rngZ

theorem verifier_spec_witness :
    (SchnorrProof.mk rDlog).verifier [] (0 : ZMod 5) [] =
      .err .InvalidInstanceWitnessPair ∧
    (SchnorrProof.mk rDlog).verifier [4] (2 : ZMod 5) [3] = .ok () ∧
    (SchnorrProof.mk rDlog).verifier [4] (2 : ZMod 5) [0] =
      .err .VerificationFailure ∧
    (∃ k, (SchnorrProof.mk rUn).verifier [0] (1 : ZMod 5) [1] =
      .err (.UnassignedGroupVar k)) :=
  ⟨(verifier_spec ⟨rDlog⟩ [] 0 []).1 (by decide),
   ((verifier_spec ⟨rDlog⟩ [4] 2 [3]).2.1 (by decide) (by decide)
     (by decide) (by decide) (by decide)).1.mpr (by decide),
   ((verifier_spec ⟨rDlog⟩ [4] 2 [0]).2.1 (by decide) (by decide)
     (by decide) (by decide) (by decide)).2.mpr (by decide),
   (verifier_spec ⟨rUn⟩ [0] 1 [1]).2.2 (by decide) (by decide) (by decide)
     (by decide) (by decide) (by decide)⟩

theorem prover_commit_spec_witness :
    (SchnorrProof.mk rDlog).prover_commit [] rngZ =
      .err .InvalidInstanceWitnessPair ∧
    (SchnorrProof.mk rTriv).prover_commit [2] rngZ =
      .err .InvalidInstanceWitnessPair ∧
    (SchnorrProof.mk rDlog).prover_commit [2] rngZ =
      .ok (rDlog.linear_map.evalPure (honestNonces ⟨rDlog⟩ rngZ),
        (honestNonces ⟨rDlog⟩ rngZ, [2])) :=
  ⟨(prover_commit_spec ⟨rDlog⟩ [] rngZ).1 (by decide),
   (prover_commit_spec ⟨rTriv⟩ [2] rngZ).2.1 (by decide) (by decide)
     (by decide),
   ((prover_commit_spec ⟨rDlog⟩ [2] rngZ).2.2 (by decide) (by decide)
     (by decide) (by decide)).1⟩

theorem label_bytes_spec_witness :
    rDlog.label = some (labelSpec rDlog) ∧
    ∀ m : GroupMap (ZMod 5),
      (LinearRelation.mk
        ⟨rDlog.linear_map.constraints, m, rDlog.linear_map.num_scalars,
          rDlog.linear_map.num_elements⟩ rDlog.image).label = rDlog.label :=
  label_bytes_spec rDlog (by decide)

theorem simulate_commitment_spec_witness :
    (SchnorrProof.mk rDlog).simulate_commitment (2 : ZMod 5) [] =
      .err .InvalidInstanceWitnessPair ∧
    (SchnorrProof.mk rDlog).simulate_commitment (2 : ZMod 5) [3] =
      .ok [4] ∧
    ((NISigmaProtocol.new (S := ZMod 5) [9, 9] ⟨rDlog⟩).verify_compact extZ
        ((SchnorrProof.mk rDlog).serialize_compact extZ [] (2 : ZMod 5)
          [3])).1 =
      ((SchnorrProof.mk rDlog).get_commitment (2 : ZMod 5) [3]).bind
        (fun commitment =>
          ((NISigmaProtocol.new (S := ZMod 5) [9, 9] ⟨rDlog⟩).verify extZ
            commitment (2 : ZMod 5) [3]).1) :=
  ⟨(simulate_commitment_spec ⟨rDlog⟩ 2 [] extZ).1 (by decide),
   (((simulate_commitment_spec ⟨rDlog⟩ 2 [3] extZ).2.1 (by decide)
     (by decide) (by decide) (by decide)).1).trans (by decide),
   (simulate_commitment_spec ⟨rDlog⟩ 2 [3] extZ).2.2
     ⟨by decide, by decide, by decide, by decide⟩ (by decide)
     (NISigmaProtocol.new [9, 9] ⟨rDlog⟩) rfl []⟩

theorem empty_relation_refusal_witness :
    (SchnorrProof.mk
      (⟨⟨[], ⟨[]⟩, 2, 0⟩, []⟩ : LinearRelation (ZMod 5))).prover_commit
      [1, 2] rngZ = .err .InvalidInstanceWitnessPair :=
  empty_relation_refusal (S := ZMod 5) ⟨[]⟩ 2 0 [1, 2] rngZ (by decide)

end Concrete

end Denotation

end SigmaRs
